import Mathlib

/-!
Verification of the raytracer repository (two renderer variants in `src/main.c`:
a C Whitted-style renderer, "Policy A", and a C++ stochastic renderer, "Policy B").

Shallow embedding conventions:
* `float` values are modelled as exact rationals (`ℚ`); decimal literals in the
  source are read at their literal rational value.
* `sqrtf` and `powf` (with a non-constant exponent) are modelled as explicit
  function parameters `sqrt : ℚ → ℚ` and `powf : ℚ → ℚ → ℚ`; `powf (v, 2)` in
  the source is modelled as exact squaring, which is what it computes.
  Concrete instantiations use Mathlib's `Rat.sqrt`, which agrees with `sqrtf`
  on exactly representable perfect squares.
* The `float` value `+infinity` (used as `t_max` in Policy B) is modelled by
  `Option ℚ` with `none` standing for `+infinity`.
* The general recursion of `cast_ray` / `raytrace` and the rejection-sampling
  loop of `random_in_unit_sphere` are modelled by fuel-indexed interpreters
  returning `Option`; `none` means the fuel was exhausted.
* The Mersenne-twister random source of Policy B is modelled as an abstract
  stream `rng : ℕ → Vec3` of candidate points (the successive outputs of
  `random_vec3 (-1, 1)`), threaded by an explicit cursor index.
-/

/-- `struct vec3` of the C source (and `glm::vec3` of the C++ source). -/
structure Vec3 where
  x : ℚ
  y : ℚ
  z : ℚ
deriving DecidableEq, Repr

instance : Add Vec3 := ⟨fun a b => ⟨a.x + b.x, a.y + b.y, a.z + b.z⟩⟩

instance : Sub Vec3 := ⟨fun a b => ⟨a.x - b.x, a.y - b.y, a.z - b.z⟩⟩

instance : Neg Vec3 := ⟨fun a => ⟨-a.x, -a.y, -a.z⟩⟩

instance : SMul ℚ Vec3 := ⟨fun q v => ⟨q * v.x, q * v.y, q * v.z⟩⟩

/-- `vec3_dot` (and `glm::dot`). -/
def vec3_dot (a b : Vec3) : ℚ := a.x * b.x + a.y * b.y + a.z * b.z

/-- `vec3_length`: `sqrtf(powf(v.x,2) + powf(v.y,2) + powf(v.z,2))`. -/
def vec3_length (sqrt : ℚ → ℚ) (v : Vec3) : ℚ := sqrt (v.x ^ 2 + v.y ^ 2 + v.z ^ 2)

/-- `vec3_normalize` (and `glm::normalize`): componentwise division by the length. -/
def vec3_normalize (sqrt : ℚ → ℚ) (v : Vec3) : Vec3 :=
  let length := vec3_length sqrt v
  ⟨v.x / length, v.y / length, v.z / length⟩

/-- `vec3_inverse`: componentwise negation. -/
def vec3_inverse (v : Vec3) : Vec3 := ⟨-v.x, -v.y, -v.z⟩

/-- `vec3_reflect`: `I - N * 2 * dot(I, N)`, componentwise. -/
def vec3_reflect (I N : Vec3) : Vec3 :=
  let dot := vec3_dot I N
  ⟨I.x - N.x * 2 * dot, I.y - N.y * 2 * dot, I.z - N.z * 2 * dot⟩

/-- The clamp `max(-1, min(1, ·))` used by `vec3_refract`. -/
def clamp1 (t : ℚ) : ℚ := max (-1) (min 1 t)

/-- The non-recursing body of `vec3_refract`: Snell refraction for
`cosi = -clamp(dot I N) ≥ 0`, returning the constant `(1, 0, 0)` when
`k < 0` (total internal reflection). -/
def vec3_refract_core (sqrt : ℚ → ℚ) (I N : Vec3) (eta_t eta_i : ℚ) : Vec3 :=
  let cosi := -(clamp1 (vec3_dot I N))
  let eta := eta_i / eta_t
  let k := 1 - eta ^ 2 * (1 - cosi ^ 2)
  if k < 0 then ⟨1, 0, 0⟩
  else
    ⟨I.x * eta + N.x * (eta * cosi - sqrt k),
     I.y * eta + N.y * (eta * cosi - sqrt k),
     I.z * eta + N.z * (eta * cosi - sqrt k)⟩

/-- `vec3_refract`.  The C function recurses once (with inverted normal and
swapped indices) when `cosi < 0`; at that flipped call `cosi` is nonnegative,
so the recursion is bottomed out after one unfolding.  The theorem
`vec3_refract_unfold` below re-establishes the recursive equation of the
C source for this definition. -/
def vec3_refract (sqrt : ℚ → ℚ) (I N : Vec3) (eta_t eta_i : ℚ) : Vec3 :=
  let cosi := -(clamp1 (vec3_dot I N))
  if cosi < 0 then vec3_refract_core sqrt I (vec3_inverse N) eta_i eta_t
  else vec3_refract_core sqrt I N eta_t eta_i

/-- `struct vec4` of the C source. -/
structure Vec4 where
  x : ℚ
  y : ℚ
  z : ℚ
  w : ℚ
deriving DecidableEq, Repr

/-- `struct material` of the C source. -/
structure Material where
  albedo : Vec4
  diffuse : Vec3
  specular_exponent : ℚ
  refractive_index : ℚ
deriving DecidableEq, Repr

/-- `struct sphere` of the C source (Policy A). -/
structure SphereA where
  center : Vec3
  radius : ℚ
  material : Material
deriving DecidableEq, Repr

/-- `struct light` of the C source. -/
structure Light where
  position : Vec3
  intensity : ℚ
deriving DecidableEq, Repr

/-- `sphere_ray_intersect` (Policy A): geometric ray/sphere test.  Returns the
chosen parameter `t0` (through the out-parameter in C) or `none` for "no hit". -/
def sphere_ray_intersect (sqrt : ℚ → ℚ) (s : SphereA) (origin direction : Vec3) :
    Option ℚ :=
  let L : Vec3 := s.center - origin
  let tca := vec3_dot L direction
  let d2 := vec3_dot L L - tca ^ 2
  if d2 > s.radius ^ 2 then none
  else
    let thc := sqrt (s.radius ^ 2 - d2)
    let t0 := tca - thc
    let t1 := tca + thc
    let t0' := if t0 < 0 then t1 else t0
    if t0' < 0 then none else some t0'

/-- `FLT_MAX`, the exact value of the largest finite `float`. -/
def FLT_MAX : ℚ := (2 ^ 24 - 1) * 2 ^ 104

/-- The data written through the out-parameters of `scene_intersect`. -/
structure SceneHit where
  hit : Vec3
  N : Vec3
  material : Material
deriving DecidableEq, Repr

/-- The out-parameter state written by `scene_intersect` for a sphere hit at
parameter `d`: hit point, normalized outward normal, and the material. -/
def scene_hit_record (sqrt : ℚ → ℚ) (origin direction : Vec3) (s : SphereA) (d : ℚ) :
    SceneHit :=
  let hit := origin + d • direction
  ⟨hit, vec3_normalize sqrt (hit - s.center), s.material⟩

/-- The loop of `scene_intersect`, folding over the sphere list while keeping
the closest distance so far (`spheres_dist`) and the out-parameter state. -/
def scene_intersect_aux (sqrt : ℚ → ℚ) (origin direction : Vec3) :
    List SphereA → ℚ → Option SceneHit → ℚ × Option SceneHit
  | [], best, cur => (best, cur)
  | s :: rest, best, cur =>
    match sphere_ray_intersect sqrt s origin direction with
    | some dist_i =>
      if dist_i < best then
        scene_intersect_aux sqrt origin direction rest dist_i
          (some (scene_hit_record sqrt origin direction s dist_i))
      else scene_intersect_aux sqrt origin direction rest best cur
    | none => scene_intersect_aux sqrt origin direction rest best cur

/-- `scene_intersect` (Policy A): linear scan over all spheres starting from
`spheres_dist = FLT_MAX`; reports a hit exactly when the final
`spheres_dist < 1000`. -/
def scene_intersect (sqrt : ℚ → ℚ) (spheres : List SphereA) (origin direction : Vec3) :
    Option SceneHit :=
  let r := scene_intersect_aux sqrt origin direction spheres FLT_MAX none
  if r.1 < 1000 then r.2 else none

/-- The epsilon-biased ray origin used by `cast_ray`: the hit point offset by
`1e-3` along `N`, with the sign chosen by whether `dir2` opposes `N`. -/
def bias_origin (point N dir2 : Vec3) : Vec3 :=
  if vec3_dot dir2 N < 0 then point - (1 / 1000 : ℚ) • N else point + (1 / 1000 : ℚ) • N

/-- One iteration of the light loop of `cast_ray`: shadow test, then
accumulation of the diffuse and specular intensities. -/
def light_step (sqrt : ℚ → ℚ) (powf : ℚ → ℚ → ℚ) (spheres : List SphereA)
    (point N direction : Vec3) (m : Material) (acc : ℚ × ℚ) (lg : Light) : ℚ × ℚ :=
  let toLight : Vec3 := lg.position - point
  let light_distance := vec3_length sqrt toLight
  let light_direction := vec3_normalize sqrt toLight
  let shadow_origin := bias_origin point N light_direction
  let contrib : ℚ × ℚ :=
    (acc.1 + max 0 (vec3_dot light_direction N) * lg.intensity,
     acc.2 + powf (max 0 (vec3_dot (vec3_reflect light_direction N) direction))
         m.specular_exponent * lg.intensity)
  match scene_intersect sqrt spheres shadow_origin light_direction with
  | some sh =>
    if vec3_length sqrt (sh.hit - shadow_origin) < light_distance then acc else contrib
  | none => contrib

/-- The background constant of Policy A: `(0.2, 0.7, 0.8)`. -/
def background_A : Vec3 := ⟨1 / 5, 7 / 10, 4 / 5⟩

/-- The final per-channel color combination of `cast_ray`:
`diffuse * diffuse_intensity * albedo.x + specular_intensity * albedo.y +
reflect_color * albedo.z + refract_color * albedo.w`. -/
def cast_ray_shade (m : Material) (acc : ℚ × ℚ) (reflect_color refract_color : Vec3) :
    Vec3 :=
  ⟨m.diffuse.x * acc.1 * m.albedo.x + acc.2 * m.albedo.y +
     reflect_color.x * m.albedo.z + refract_color.x * m.albedo.w,
   m.diffuse.y * acc.1 * m.albedo.x + acc.2 * m.albedo.y +
     reflect_color.y * m.albedo.z + refract_color.y * m.albedo.w,
   m.diffuse.z * acc.1 * m.albedo.x + acc.2 * m.albedo.y +
     reflect_color.z * m.albedo.z + refract_color.z * m.albedo.w⟩

/-- `cast_ray` (Policy A), as a fuel-indexed interpreter of the C recursion;
`none` means the fuel ran out (the theorem `cast_ray_terminates`-style results
below show fuel `6` always suffices).  The `depth` parameter counts ray
generations exactly as in the source: the primary ray is cast at `depth = 0`
and the shading branch requires `depth <= 4`. -/
def cast_ray_fuel (sqrt : ℚ → ℚ) (powf : ℚ → ℚ → ℚ) (spheres : List SphereA)
    (lights : List Light) : Vec3 → Vec3 → ℕ → ℕ → Option Vec3
  | _, _, _, 0 => none
  | origin, direction, depth, fuel + 1 =>
    if depth ≤ 4 then
      match scene_intersect sqrt spheres origin direction with
      | some sh =>
        let reflect_direction := vec3_normalize sqrt (vec3_reflect direction sh.N)
        let reflect_origin := bias_origin sh.hit sh.N reflect_direction
        (cast_ray_fuel sqrt powf spheres lights reflect_origin reflect_direction
            (depth + 1) fuel).bind fun reflect_color =>
          let refract_direction := vec3_normalize sqrt
            (vec3_refract sqrt direction sh.N sh.material.refractive_index 1)
          let refract_origin := bias_origin sh.hit sh.N refract_direction
          (cast_ray_fuel sqrt powf spheres lights refract_origin refract_direction
              (depth + 1) fuel).bind fun refract_color =>
            let acc := lights.foldl
              (light_step sqrt powf spheres sh.hit sh.N direction sh.material) (0, 0)
            some (cast_ray_shade sh.material acc reflect_color refract_color)
      | none => some background_A
    else some background_A

/-- `class ray` of the C++ source (Policy B). -/
structure Ray where
  origin : Vec3
  direction : Vec3
deriving DecidableEq, Repr

/-- `ray::at`: `origin + t * direction`. -/
def ray_at (r : Ray) (t : ℚ) : Vec3 := r.origin + t • r.direction

/-- `struct hit_record` of the C++ source. -/
structure HitRecord where
  distance : ℚ
  point : Vec3
  normal : Vec3
  front_face : Bool
deriving DecidableEq, Repr

/-- `t ≤ m` where `m : Option ℚ` models a `float` that is either finite or
`+infinity` (`none`). -/
def leF (t : ℚ) : Option ℚ → Prop
  | none => True
  | some m => t ≤ m

instance (t : ℚ) (m : Option ℚ) : Decidable (leF t m) :=
  match m with
  | none => isTrue trivial
  | some q => inferInstanceAs (Decidable (t ≤ q))

/-- `m ≤ m'` on `float`-with-infinity values. -/
def leFF : Option ℚ → Option ℚ → Prop
  | _, none => True
  | none, some _ => False
  | some a, some b => a ≤ b

/-- The acceptance test of `sphere::hit` on a candidate root: the source
rejects when `root < t_min || t_max < root`. -/
def root_ok (t_min : ℚ) (t_max : Option ℚ) (t : ℚ) : Prop := t_min ≤ t ∧ leF t t_max

instance (t_min : ℚ) (t_max : Option ℚ) (t : ℚ) : Decidable (root_ok t_min t_max t) :=
  inferInstanceAs (Decidable (_ ∧ _))

/-- `sphere` of the C++ source (Policy B): no material. -/
structure SphereB where
  center : Vec3
  radius : ℚ
deriving DecidableEq, Repr

/-- The hit record built by `sphere::hit` for an accepted root, including
`hit_record::set_face_normal`. -/
def mk_hit_record (s : SphereB) (r : Ray) (t : ℚ) : HitRecord :=
  let point := ray_at r t
  let outward : Vec3 := (1 / s.radius : ℚ) • (point - s.center)
  if vec3_dot r.direction outward < 0 then ⟨t, point, outward, true⟩
  else ⟨t, point, -outward, false⟩

/-- `sphere::hit` (Policy B): quadratic intersection against the interval
`[t_min, t_max]`, preferring the smaller root. -/
def sphere_hit (sqrt : ℚ → ℚ) (s : SphereB) (r : Ray) (t_min : ℚ) (t_max : Option ℚ) :
    Option HitRecord :=
  let oc : Vec3 := r.origin - s.center
  let a := vec3_dot r.direction r.direction
  let half_b := vec3_dot oc r.direction
  let c := vec3_dot oc oc - s.radius ^ 2
  let discriminant := half_b ^ 2 - a * c
  if discriminant < 0 then none
  else
    let sqrtd := sqrt discriminant
    let root1 := (-half_b - sqrtd) / a
    let root2 := (-half_b + sqrtd) / a
    if root_ok t_min t_max root1 then some (mk_hit_record s r root1)
    else if root_ok t_min t_max root2 then some (mk_hit_record s r root2)
    else none

/-- The loop of `world::hit`: state is `closest_so_far` (narrowing upper
interval bound) and the current record (`hit_anything` is its `isSome`). -/
def world_hit_aux (sqrt : ℚ → ℚ) (r : Ray) (t_min : ℚ) :
    List SphereB → Option ℚ → Option HitRecord → Option HitRecord
  | [], _, cur => cur
  | s :: rest, closest, cur =>
    match sphere_hit sqrt s r t_min closest with
    | some rec => world_hit_aux sqrt r t_min rest (some rec.distance) (some rec)
    | none => world_hit_aux sqrt r t_min rest closest cur

/-- `world::hit` (Policy B): linear scan of all objects, narrowing `t_max`. -/
def world_hit (sqrt : ℚ → ℚ) (objects : List SphereB) (r : Ray) (t_min : ℚ)
    (t_max : Option ℚ) : Option HitRecord :=
  world_hit_aux sqrt r t_min objects t_max none

/-- `random_in_unit_sphere` (Policy B), fuel-indexed: scans the candidate
stream from cursor `i` for the first point with `dot p p < 1`, returning the
point and the advanced cursor. -/
def random_in_unit_sphere_fuel (rng : ℕ → Vec3) : ℕ → ℕ → Option (Vec3 × ℕ)
  | _, 0 => none
  | i, fuel + 1 =>
    let p := rng i
    if vec3_dot p p < 1 then some (p, i + 1)
    else random_in_unit_sphere_fuel rng (i + 1) fuel

/-- The candidate stream eventually produces a point inside the unit ball,
from every cursor position.  (True of the actual `mt19937`-driven
`random_vec3(-1, 1)` stream; required for the rejection sampling loop of
`random_in_unit_sphere` to terminate.) -/
def GoodStream (rng : ℕ → Vec3) : Prop :=
  ∀ i : ℕ, ∃ k : ℕ, vec3_dot (rng (i + k)) (rng (i + k)) < 1

/-- The background gradient of Policy B:
`(1-t)*white + t*(0.5, 0.7, 1.0)` with `t = 0.5*(unit_direction.y + 1)`. -/
def background_B (sqrt : ℚ → ℚ) (r : Ray) : Vec3 :=
  let unit_direction := vec3_normalize sqrt r.direction
  let t := (1 / 2 : ℚ) * (unit_direction.y + 1)
  (1 - t) • (⟨1, 1, 1⟩ : Vec3) + t • (⟨1 / 2, 7 / 10, 1⟩ : Vec3)

/-- `raytrace` (Policy B), as a fuel-indexed interpreter; `depth` is the `int`
recursion budget counting down, the `ℕ` argument is the stream cursor. -/
def raytrace_fuel (sqrt : ℚ → ℚ) (rng : ℕ → Vec3) (objects : List SphereB) :
    Ray → ℤ → ℕ → ℕ → Option (Vec3 × ℕ)
  | _, _, _, 0 => none
  | r, depth, i, fuel + 1 =>
    if depth ≤ 0 then some (⟨0, 0, 0⟩, i)
    else
      match world_hit sqrt objects r (1 / 1000) none with
      | some rec =>
        (random_in_unit_sphere_fuel rng i (fuel + 1)).bind fun pi =>
          let target := rec.point + rec.normal + vec3_normalize sqrt pi.1
          (raytrace_fuel sqrt rng objects ⟨rec.point, target - rec.point⟩
              (depth - 1) pi.2 fuel).bind fun ci =>
            some ((1 / 2 : ℚ) • ci.1, ci.2)
      | none => some (background_B sqrt r, i)

/-- Characterization of `world::hit` as nearest-hit resolution: it returns
"no hit" exactly when no object intersects within `[t_min, t_max]`, and any
returned record is the `sphere::hit` record of an object whose hit distance is
minimal among all objects' hits in the *original* interval. -/
def world_hit_nearest_char (sqrt : ℚ → ℚ) (objects : List SphereB) (r : Ray)
    (t_min : ℚ) (t_max : Option ℚ) : Prop :=
  (world_hit sqrt objects r t_min t_max = none ↔
     ∀ s ∈ objects, sphere_hit sqrt s r t_min t_max = none) ∧
  ∀ rec, world_hit sqrt objects r t_min t_max = some rec →
    ∃ s ∈ objects, sphere_hit sqrt s r t_min t_max = some rec ∧
      ∀ s' ∈ objects, ∀ rec', sphere_hit sqrt s' r t_min t_max = some rec' →
        rec.distance ≤ rec'.distance

/-- Characterization of `scene_intersect` as nearest-hit resolution over its
implicit interval (a hit must lie at distance `< 1000`): it reports "no hit"
exactly when no sphere intersects at distance `< 1000`, and any reported hit
is the record of a sphere whose hit distance is minimal among all spheres. -/
def scene_intersect_nearest_char (sqrt : ℚ → ℚ) (spheres : List SphereA)
    (origin direction : Vec3) : Prop :=
  (scene_intersect sqrt spheres origin direction = none ↔
     ¬ ∃ s ∈ spheres, ∃ d, sphere_ray_intersect sqrt s origin direction = some d ∧
        d < 1000) ∧
  ∀ out, scene_intersect sqrt spheres origin direction = some out →
    ∃ s ∈ spheres, ∃ d, sphere_ray_intersect sqrt s origin direction = some d ∧
      d < 1000 ∧ out = scene_hit_record sqrt origin direction s d ∧
      ∀ s' ∈ spheres, ∀ d', sphere_ray_intersect sqrt s' origin direction = some d' →
        d ≤ d'

/-! ### Basic component lemmas -/

@[simp]
theorem Vec3.add_def (a b : Vec3) : a + b = ⟨a.x + b.x, a.y + b.y, a.z + b.z⟩ := rfl

@[simp]
theorem Vec3.sub_def (a b : Vec3) : a - b = ⟨a.x - b.x, a.y - b.y, a.z - b.z⟩ := rfl

@[simp]
theorem Vec3.neg_def (a : Vec3) : -a = ⟨-a.x, -a.y, -a.z⟩ := rfl

@[simp]
theorem Vec3.smul_def (q : ℚ) (v : Vec3) : q • v = ⟨q * v.x, q * v.y, q * v.z⟩ := rfl

theorem Vec3.ext_xyz (a b : Vec3) (hx : a.x = b.x) (hy : a.y = b.y) (hz : a.z = b.z) :
    a = b := by
  cases a
  cases b
  simp_all

@[simp]
theorem ratSqrt_zero : Rat.sqrt 0 = 0 := by
  rw [show (0 : ℚ) = 0 * 0 by norm_num, Rat.sqrt_eq]
  norm_num

@[simp]
theorem ratSqrt_one : Rat.sqrt 1 = 1 := by
  rw [show (1 : ℚ) = 1 * 1 by norm_num, Rat.sqrt_eq]
  norm_num

theorem ratSqrt_sq (x : ℚ) (hx : 0 ≤ x) : Rat.sqrt (x ^ 2) = x := by
  rw [sq, Rat.sqrt_eq, abs_of_nonneg hx]

theorem clamp1_pos_iff (t : ℚ) : 0 < clamp1 t ↔ 0 < t := by
  simp only [clamp1, lt_max_iff, lt_min_iff]
  constructor
  · rintro (h | ⟨-, h⟩)
    · norm_num at h
    · exact h
  · intro h
    exact Or.inr ⟨by norm_num, h⟩

theorem clamp1_nonpos {t : ℚ} (ht : t ≤ 0) : clamp1 t ≤ 0 := by
  simp only [clamp1]
  exact max_le (by norm_num) (le_trans (min_le_right _ _) ht)

theorem vec3_dot_inverse (I N : Vec3) : vec3_dot I (vec3_inverse N) = -vec3_dot I N := by
  simp only [vec3_dot, vec3_inverse]
  ring

/-- Faithfulness of the `vec3_refract` embedding: the definition satisfies the
recursive equation of the C source (`if cosi < 0` recurse on the inverted
normal with swapped indices, else the Snell body). -/
theorem vec3_refract_unfold (sqrt : ℚ → ℚ) (I N : Vec3) (eta_t eta_i : ℚ) :
    vec3_refract sqrt I N eta_t eta_i =
      if -(clamp1 (vec3_dot I N)) < 0 then
        vec3_refract sqrt I (vec3_inverse N) eta_i eta_t
      else vec3_refract_core sqrt I N eta_t eta_i := by
  by_cases h : -(clamp1 (vec3_dot I N)) < 0
  · rw [if_pos h]
    have hd : 0 < vec3_dot I N := by
      rw [← clamp1_pos_iff]
      linarith
    have hflip : ¬ -(clamp1 (vec3_dot I (vec3_inverse N))) < 0 := by
      rw [vec3_dot_inverse]
      have := clamp1_nonpos (show -vec3_dot I N ≤ 0 by linarith)
      linarith
    rw [vec3_refract, vec3_refract]
    simp only [if_pos h, if_neg hflip]
  · rw [if_neg h, vec3_refract]
    simp only [if_neg h]

/-! ### C4, C7: refraction -/

/-- C4 (amended): with `cosi = -clamp(dot I N)`, `eta = eta_i/eta_t` and
`k = 1 - eta^2 (1 - cosi^2)`, `vec3_refract` flips the normal and recurses
with swapped indices exactly when the incident direction comes from behind the
normal (`dot I N > 0`, i.e. `cosi < 0`); for `cosi ≥ 0` it returns the vector
form of Snell's law `eta·I + (eta·cosi - sqrt k)·N` when `k ≥ 0`, and the
constant `(1, 0, 0)` in the total-internal-reflection case `k < 0`. -/
theorem vec3_refract_behavior (sqrt : ℚ → ℚ) (I N : Vec3) (eta_t eta_i cosi eta k : ℚ)
    (hc : cosi = -(clamp1 (vec3_dot I N)))
    (he : eta = eta_i / eta_t)
    (hk : k = 1 - eta ^ 2 * (1 - cosi ^ 2)) :
    (0 < vec3_dot I N →
       vec3_refract sqrt I N eta_t eta_i = vec3_refract sqrt I (vec3_inverse N) eta_i eta_t) ∧
    (0 ≤ cosi → 0 ≤ k →
       vec3_refract sqrt I N eta_t eta_i = eta • I + (eta * cosi - sqrt k) • N) ∧
    (0 ≤ cosi → k < 0 → vec3_refract sqrt I N eta_t eta_i = ⟨1, 0, 0⟩) := by
  subst hc he hk
  refine ⟨fun hd => ?_, fun hcos hkn => ?_, fun hcos hkneg => ?_⟩
  · rw [vec3_refract_unfold, if_pos]
    have := (clamp1_pos_iff (vec3_dot I N)).mpr hd
    linarith
  · rw [vec3_refract_unfold, if_neg (not_lt.mpr hcos)]
    simp only [vec3_refract_core]
    rw [if_neg (not_lt.mpr hkn)]
    apply Vec3.ext_xyz <;> simp <;> ring
  · rw [vec3_refract_unfold, if_neg (not_lt.mpr hcos)]
    simp only [vec3_refract_core]
    rw [if_pos hkneg]

/-- C4 (counterexample): at `I = (1,0,0)`, `N = (0,0,1)`, `eta_t = 1`,
`eta_i = 2` the quantity `k = -3` is negative (total internal reflection) —
yet `vec3_refract` returns the constant `(1, 0, 0)`, which is *not* the result
of recursing with flipped normal and swapped indices. -/
theorem c4_counterexample :
    vec3_refract Rat.sqrt ⟨1, 0, 0⟩ ⟨0, 0, 1⟩ 1 2 = ⟨1, 0, 0⟩ ∧
    vec3_refract Rat.sqrt ⟨1, 0, 0⟩ ⟨0, 0, 1⟩ 1 2 ≠
      vec3_refract Rat.sqrt ⟨1, 0, 0⟩ (vec3_inverse ⟨0, 0, 1⟩) 2 1 := by
  have h1 : vec3_refract Rat.sqrt ⟨1, 0, 0⟩ ⟨0, 0, 1⟩ 1 2 = ⟨1, 0, 0⟩ := by
    norm_num [vec3_refract, vec3_refract_core, clamp1, vec3_dot, min_def, max_def]
  refine ⟨h1, ?_⟩
  rw [h1]
  intro h
  have hx := congrArg Vec3.x h
  norm_num [vec3_refract, vec3_refract_core, clamp1, vec3_dot, vec3_inverse,
    min_def, max_def] at hx

/-- C4 (witness): the amended theorem applied at a concrete refracting input
(`I = (3/5, 0, -4/5)`, `N = (0,0,1)`, `eta_t = 2`, `eta_i = 1`, so
`cosi = 4/5`, `eta = 1/2`, `k = 91/100 ≥ 0`). -/
theorem c4_witness :
    (0 < vec3_dot ⟨3/5, 0, -4/5⟩ ⟨0, 0, 1⟩ →
       vec3_refract Rat.sqrt ⟨3/5, 0, -4/5⟩ ⟨0, 0, 1⟩ 2 1 =
         vec3_refract Rat.sqrt ⟨3/5, 0, -4/5⟩ (vec3_inverse ⟨0, 0, 1⟩) 1 2) ∧
    (0 ≤ (4/5 : ℚ) → 0 ≤ (91/100 : ℚ) →
       vec3_refract Rat.sqrt ⟨3/5, 0, -4/5⟩ ⟨0, 0, 1⟩ 2 1 =
         (1/2 : ℚ) • (⟨3/5, 0, -4/5⟩ : Vec3) +
           ((1/2 : ℚ) * (4/5) - Rat.sqrt (91/100)) • (⟨0, 0, 1⟩ : Vec3)) ∧
    (0 ≤ (4/5 : ℚ) → (91/100 : ℚ) < 0 →
       vec3_refract Rat.sqrt ⟨3/5, 0, -4/5⟩ ⟨0, 0, 1⟩ 2 1 = ⟨1, 0, 0⟩) :=
  vec3_refract_behavior Rat.sqrt ⟨3/5, 0, -4/5⟩ ⟨0, 0, 1⟩ 2 1 (4/5) (1/2) (91/100)
    (by norm_num [clamp1, vec3_dot, min_def, max_def]) (by norm_num) (by norm_num)

theorem vec3_refract_core_self (sqrt : ℚ → ℚ) (I N : Vec3) (eta : ℚ) (heta : eta ≠ 0)
    (hsq : ∀ x : ℚ, 0 ≤ x → sqrt (x ^ 2) = x)
    (hcos : 0 ≤ -(clamp1 (vec3_dot I N))) :
    vec3_refract_core sqrt I N eta eta = I := by
  have hdiv : eta / eta = 1 := div_self heta
  simp only [vec3_refract_core, hdiv]
  rw [show (1 : ℚ) - 1 ^ 2 * (1 - (-(clamp1 (vec3_dot I N))) ^ 2) =
      (-(clamp1 (vec3_dot I N))) ^ 2 from by ring]
  rw [if_neg (not_lt.mpr (by positivity)), hsq _ hcos]
  apply Vec3.ext_xyz <;> simp

/-- C7 (amended): with equal *nonzero* refractive indices and a square root
that is exact on squares, `vec3_refract` returns `I` exactly. -/
theorem vec3_refract_equal_idx (sqrt : ℚ → ℚ) (I N : Vec3) (eta : ℚ) (heta : eta ≠ 0)
    (hsq : ∀ x : ℚ, 0 ≤ x → sqrt (x ^ 2) = x) :
    vec3_refract sqrt I N eta eta = I := by
  rw [vec3_refract_unfold]
  by_cases h : -(clamp1 (vec3_dot I N)) < 0
  · rw [if_pos h, vec3_refract_unfold]
    have hd : 0 < vec3_dot I N := by
      rw [← clamp1_pos_iff]
      linarith
    have hcl := clamp1_nonpos (show -vec3_dot I N ≤ 0 by linarith)
    have hflip : ¬ -(clamp1 (vec3_dot I (vec3_inverse N))) < 0 := by
      rw [vec3_dot_inverse]
      linarith
    rw [if_neg hflip]
    exact vec3_refract_core_self sqrt I (vec3_inverse N) eta heta hsq (not_lt.mp hflip)
  · rw [if_neg h]
    exact vec3_refract_core_self sqrt I N eta heta hsq (not_lt.mp h)

/-- C7 (counterexample): with equal refractive indices `eta_t = eta_i = 0`
(where `eta_i / eta_t` is degenerate), `vec3_refract` does not return `I`. -/
theorem c7_counterexample :
    vec3_refract Rat.sqrt ⟨1, 0, 0⟩ ⟨0, 0, 1⟩ 0 0 ≠ ⟨1, 0, 0⟩ := by
  intro h
  have hx := congrArg Vec3.x h
  norm_num [vec3_refract, vec3_refract_core, clamp1, vec3_dot, min_def, max_def] at hx

/-- C7 (witness): the amended theorem applied at `eta = 3/2` with `Rat.sqrt`. -/
theorem c7_witness :
    ((3/2 : ℚ) ≠ 0) ∧ vec3_refract Rat.sqrt ⟨1, 0, 0⟩ ⟨0, 0, 1⟩ (3/2) (3/2) = ⟨1, 0, 0⟩ :=
  ⟨by norm_num, vec3_refract_equal_idx Rat.sqrt ⟨1, 0, 0⟩ ⟨0, 0, 1⟩ (3/2)
    (by norm_num) ratSqrt_sq⟩

/-! ### C1: Policy A background -/

/-- C1: for every ray, whenever the depth budget is exhausted (`depth ≥ 5`,
i.e. more than the primary ray plus 4 recursive generations) or the scene
intersection reports no hit, `cast_ray` returns the fixed background constant
`(0.2, 0.7, 0.8)` (for any sufficient fuel). -/
theorem cast_ray_background (sqrt : ℚ → ℚ) (powf : ℚ → ℚ → ℚ) (spheres : List SphereA)
    (lights : List Light) (origin direction : Vec3) (depth fuel : ℕ) (hfuel : 0 < fuel)
    (h : 5 ≤ depth ∨ scene_intersect sqrt spheres origin direction = none) :
    cast_ray_fuel sqrt powf spheres lights origin direction depth fuel =
      some background_A := by
  cases fuel with
  | zero => omega
  | succ f =>
    rcases h with h | h
    · have hd : ¬ depth ≤ 4 := by omega
      simp [cast_ray_fuel, hd]
    · by_cases hd : depth ≤ 4
      · simp [cast_ray_fuel, hd, h]
      · simp [cast_ray_fuel, hd]

/-- C1 (witness): the theorem applied at depth 5 in the empty scene. -/
theorem c1_witness :
    0 < 1 ∧ (5 ≤ 5 ∨ scene_intersect Rat.sqrt [] ⟨0, 0, 0⟩ ⟨0, 0, 1⟩ = none) ∧
      cast_ray_fuel Rat.sqrt (fun _ _ => 1) [] [] ⟨0, 0, 0⟩ ⟨0, 0, 1⟩ 5 1 =
        some background_A :=
  ⟨Nat.one_pos, Or.inl (le_refl 5),
    cast_ray_background Rat.sqrt (fun _ _ => 1) [] [] ⟨0, 0, 0⟩ ⟨0, 0, 1⟩ 5 1
      Nat.one_pos (Or.inl (le_refl 5))⟩

/-! ### C3: degenerate directions -/

/-- C3 (counterexample): for the exactly-degenerate ray with direction
`(0, 0, 0)` and origin at the center of a unit sphere, `sphere_ray_intersect`
reports a *hit* (at `t0 = 1`), not "no hit" — all values computed here are
float-exact, so the C code does the same. -/
theorem c3_counterexample :
    sphere_ray_intersect Rat.sqrt
      ⟨⟨0, 0, 0⟩, 1, ⟨⟨1, 0, 0, 0⟩, ⟨1, 1, 1⟩, 10, 1⟩⟩ ⟨0, 0, 0⟩ ⟨0, 0, 0⟩ = some 1 := by
  norm_num [sphere_ray_intersect, vec3_dot]

/-- C3 (amended): `sphere_ray_intersect` performs no division at all (so a
degenerate direction cannot divide by zero), and for a zero-length direction
it reports no hit whenever the ray origin lies strictly outside the sphere. -/
theorem sphere_ray_intersect_zero_dir (sqrt : ℚ → ℚ) (s : SphereA) (origin : Vec3)
    (hout : s.radius ^ 2 < vec3_dot (s.center - origin) (s.center - origin)) :
    sphere_ray_intersect sqrt s origin ⟨0, 0, 0⟩ = none := by
  have htca : vec3_dot (s.center - origin) ⟨0, 0, 0⟩ = 0 := by simp [vec3_dot]
  simp only [sphere_ray_intersect, htca]
  rw [if_pos (by simpa using hout)]

/-- C3 (witness): the amended theorem applied to a unit sphere 5 units away
from a zero-direction ray's origin. -/
theorem c3_witness :
    ((1 : ℚ) ^ 2 < vec3_dot ((⟨0, 0, 5⟩ : Vec3) - ⟨0, 0, 0⟩) ((⟨0, 0, 5⟩ : Vec3) - ⟨0, 0, 0⟩)) ∧
    sphere_ray_intersect Rat.sqrt
      ⟨⟨0, 0, 5⟩, 1, ⟨⟨1, 0, 0, 0⟩, ⟨1, 1, 1⟩, 10, 1⟩⟩ ⟨0, 0, 0⟩ ⟨0, 0, 0⟩ = none :=
  ⟨by norm_num [vec3_dot],
    sphere_ray_intersect_zero_dir Rat.sqrt
      ⟨⟨0, 0, 5⟩, 1, ⟨⟨1, 0, 0, 0⟩, ⟨1, 1, 1⟩, 10, 1⟩⟩ ⟨0, 0, 0⟩
      (by norm_num [vec3_dot])⟩

/-! ### Scene resolution, Policy A -/

theorem scene_intersect_aux_spec (sqrt : ℚ → ℚ) (origin direction : Vec3) :
    ∀ (L : List SphereA) (best : ℚ) (cur : Option SceneHit),
      ((scene_intersect_aux sqrt origin direction L best cur).1 = best ∧
         (scene_intersect_aux sqrt origin direction L best cur).2 = cur ∧
         ∀ s ∈ L, ∀ d, sphere_ray_intersect sqrt s origin direction = some d → best ≤ d) ∨
      (∃ s ∈ L, ∃ d, sphere_ray_intersect sqrt s origin direction = some d ∧
         (scene_intersect_aux sqrt origin direction L best cur).1 = d ∧ d < best ∧
         (scene_intersect_aux sqrt origin direction L best cur).2 =
           some (scene_hit_record sqrt origin direction s d) ∧
         ∀ s' ∈ L, ∀ d', sphere_ray_intersect sqrt s' origin direction = some d' →
           d ≤ d') := by
  intro L
  induction L with
  | nil =>
    intro best cur
    left
    exact ⟨rfl, rfl, by simp⟩
  | cons s rest ih =>
    intro best cur
    cases hI : sphere_ray_intersect sqrt s origin direction with
    | none =>
      have hstep : scene_intersect_aux sqrt origin direction (s :: rest) best cur =
          scene_intersect_aux sqrt origin direction rest best cur := by
        simp [scene_intersect_aux, hI]
      rw [hstep]
      rcases ih best cur with ⟨h1, h2, h3⟩ | ⟨s₂, hs₂, d₂, hd₂, h1, h2, h3, h4⟩
      · left
        refine ⟨h1, h2, ?_⟩
        intro s' hs' d' hd'
        rcases List.mem_cons.mp hs' with rfl | hmem
        · rw [hI] at hd'
          cases hd'
        · exact h3 s' hmem d' hd'
      · right
        refine ⟨s₂, List.mem_cons_of_mem s hs₂, d₂, hd₂, h1, h2, h3, ?_⟩
        intro s' hs' d' hd'
        rcases List.mem_cons.mp hs' with rfl | hmem
        · rw [hI] at hd'
          cases hd'
        · exact h4 s' hmem d' hd'
    | some d =>
      by_cases hlt : d < best
      · have hstep : scene_intersect_aux sqrt origin direction (s :: rest) best cur =
            scene_intersect_aux sqrt origin direction rest d
              (some (scene_hit_record sqrt origin direction s d)) := by
          simp [scene_intersect_aux, hI, hlt]
        rw [hstep]
        rcases ih d (some (scene_hit_record sqrt origin direction s d)) with
          ⟨h1, h2, h3⟩ | ⟨s₂, hs₂, d₂, hd₂, h1, h2, h3, h4⟩
        · right
          refine ⟨s, List.mem_cons_self s rest, d, hI, h1, hlt, h2, ?_⟩
          intro s' hs' d' hd'
          rcases List.mem_cons.mp hs' with rfl | hmem
          · rw [hI] at hd'
            cases hd'
            exact le_refl d
          · exact h3 s' hmem d' hd'
        · right
          refine ⟨s₂, List.mem_cons_of_mem s hs₂, d₂, hd₂, h1, lt_trans h2 hlt, h3, ?_⟩
          intro s' hs' d' hd'
          rcases List.mem_cons.mp hs' with rfl | hmem
          · rw [hI] at hd'
            cases hd'
            exact le_of_lt h2
          · exact h4 s' hmem d' hd'
      · have hstep : scene_intersect_aux sqrt origin direction (s :: rest) best cur =
            scene_intersect_aux sqrt origin direction rest best cur := by
          simp [scene_intersect_aux, hI, hlt]
        rw [hstep]
        rcases ih best cur with ⟨h1, h2, h3⟩ | ⟨s₂, hs₂, d₂, hd₂, h1, h2, h3, h4⟩
        · left
          refine ⟨h1, h2, ?_⟩
          intro s' hs' d' hd'
          rcases List.mem_cons.mp hs' with rfl | hmem
          · rw [hI] at hd'
            cases hd'
            exact not_lt.mp hlt
          · exact h3 s' hmem d' hd'
        · right
          refine ⟨s₂, List.mem_cons_of_mem s hs₂, d₂, hd₂, h1, h2, h3, ?_⟩
          intro s' hs' d' hd'
          rcases List.mem_cons.mp hs' with rfl | hmem
          · rw [hI] at hd'
            cases hd'
            exact le_of_lt (lt_of_lt_of_le h2 (not_lt.mp hlt))
          · exact h4 s' hmem d' hd'

theorem flt_max_big : (1000 : ℚ) < FLT_MAX := by
  norm_num [FLT_MAX]

/-- Helper: `scene_intersect` satisfies the nearest-hit characterization. -/
theorem scene_intersect_char (sqrt : ℚ → ℚ) (spheres : List SphereA)
    (origin direction : Vec3) :
    scene_intersect_nearest_char sqrt spheres origin direction := by
  unfold scene_intersect_nearest_char
  simp only [scene_intersect]
  rcases scene_intersect_aux_spec sqrt origin direction spheres FLT_MAX none with
    ⟨h1, h2, h3⟩ | ⟨s₂, hs₂, d₂, hd₂, h1, h2, h3, h4⟩
  · rw [h1, h2, if_neg (not_lt.mpr (le_of_lt flt_max_big))]
    constructor
    · simp only [true_iff]
      rintro ⟨s, hs, d, hd, hlt⟩
      exact absurd (lt_of_lt_of_le (lt_trans hlt flt_max_big) (h3 s hs d hd))
        (lt_irrefl _)
    · intro out hout
      cases hout
  · rw [h1, h3]
    by_cases hcut : d₂ < 1000
    · rw [if_pos hcut]
      constructor
      · constructor
        · intro hn
          cases hn
        · intro hn
          exact absurd ⟨s₂, hs₂, d₂, hd₂, hcut⟩ hn
      · intro out hout
        cases hout
        exact ⟨s₂, hs₂, d₂, hd₂, hcut, rfl, h4⟩
    · rw [if_neg hcut]
      constructor
      · simp only [true_iff]
        rintro ⟨s, hs, d, hd, hlt⟩
        exact hcut (lt_of_le_of_lt (h4 s hs d hd) hlt)
      · intro out hout
        cases hout

/-- C10: `scene_intersect` reports a hit if and only if some sphere (hence the
nearest one) intersects the ray at distance strictly less than `1000`; in
particular a scene whose every intersection lies at distance `≥ 1000` renders
as background despite the geometric intersection existing. -/
theorem scene_intersect_cutoff_1000 (sqrt : ℚ → ℚ) (spheres : List SphereA)
    (origin direction : Vec3) :
    scene_intersect sqrt spheres origin direction ≠ none ↔
      ∃ s ∈ spheres, ∃ d, sphere_ray_intersect sqrt s origin direction = some d ∧
        d < 1000 := by
  have hc := (scene_intersect_char sqrt spheres origin direction).1
  constructor
  · intro hne
    by_contra hno
    exact hne (hc.mpr hno)
  · intro hex hnone
    exact (hc.mp hnone) hex

/-! ### Scene resolution, Policy B -/

theorem leF_of_le {x y : ℚ} {m : Option ℚ} (hxy : x ≤ y) (h : leF y m) : leF x m := by
  cases m with
  | none => trivial
  | some q => exact le_trans hxy h

theorem leF_trans_leFF {t : ℚ} {m t_max : Option ℚ} (h : leF t m) (hm : leFF m t_max) :
    leF t t_max := by
  cases t_max with
  | none => trivial
  | some T =>
    cases m with
    | none => exact hm.elim
    | some q => exact le_trans h hm

theorem leFF_some_of_leF {d : ℚ} {t_max : Option ℚ} (h : leF d t_max) :
    leFF (some d) t_max := by
  cases t_max with
  | none => trivial
  | some T => exact h

theorem leFF_refl (m : Option ℚ) : leFF m m := by
  cases m with
  | none => trivial
  | some q => exact le_refl q

theorem le_of_leF_not_leF {x y : ℚ} {m : Option ℚ} (hx : leF x m) (hy : ¬ leF y m) :
    x ≤ y := by
  cases m with
  | none => exact absurd trivial hy
  | some q => exact le_trans hx (le_of_lt (not_le.mp hy))

theorem mk_hit_record_distance (s : SphereB) (r : Ray) (t : ℚ) :
    (mk_hit_record s r t).distance = t := by
  simp only [mk_hit_record]
  split <;> rfl

theorem sphere_hit_some_ok {sqrt : ℚ → ℚ} {s : SphereB} {r : Ray} {t_min : ℚ}
    {t_max : Option ℚ} {rec : HitRecord}
    (h : sphere_hit sqrt s r t_min t_max = some rec) :
    root_ok t_min t_max rec.distance := by
  simp only [sphere_hit] at h
  split at h
  · exact Option.noConfusion h
  · split at h
    · injection h with h
      subst h
      rw [mk_hit_record_distance]
      assumption
    · split at h
      · injection h with h
        subst h
        rw [mk_hit_record_distance]
        assumption
      · exact Option.noConfusion h

/-- The narrowing property of `sphere::hit`: testing against a narrowed upper
bound `m ≤ t_max` returns exactly the hit against the original interval,
filtered by the narrowed bound.  (Needs a nondegenerate direction and a
square root that is nonnegative on nonnegative inputs, so that the smaller
root is tried first.) -/
theorem sphere_hit_narrow (sqrt : ℚ → ℚ) (s : SphereB) (r : Ray) (t_min : ℚ)
    (t_max m : Option ℚ)
    (hsq : ∀ q : ℚ, 0 ≤ q → 0 ≤ sqrt q)
    (ha : 0 < vec3_dot r.direction r.direction)
    (hm : leFF m t_max) :
    sphere_hit sqrt s r t_min m =
      (sphere_hit sqrt s r t_min t_max).bind
        (fun rec => if leF rec.distance m then some rec else none) := by
  simp only [sphere_hit]
  set oc : Vec3 := r.origin - s.center with hoc
  set a := vec3_dot r.direction r.direction with hA
  set hb := vec3_dot oc r.direction with hHB
  set c := vec3_dot oc oc - s.radius ^ 2 with hC
  by_cases hdisc : hb ^ 2 - a * c < 0
  · rw [if_pos hdisc, if_pos hdisc]
    rfl
  · rw [if_neg hdisc, if_neg hdisc]
    set sq := sqrt (hb ^ 2 - a * c) with hsqd
    have hsq0 : 0 ≤ sq := hsq _ (not_lt.mp hdisc)
    set r1 := (-hb - sq) / a with hr1
    set r2 := (-hb + sq) / a with hr2
    have h12 : r1 ≤ r2 := by
      rw [hr1, hr2]
      exact (div_le_div_iff_of_pos_right ha).mpr (by linarith)
    by_cases hk1 : root_ok t_min t_max r1
    · rw [if_pos hk1]
      simp only [Option.some_bind]
      rw [mk_hit_record_distance]
      by_cases hl1 : leF r1 m
      · have hro1 : root_ok t_min m r1 := ⟨hk1.1, hl1⟩
        rw [if_pos hro1, if_pos hl1]
      · have hL2 : ¬ root_ok t_min m r2 := fun hro => hl1 (leF_of_le h12 hro.2)
        rw [if_neg (fun hro => hl1 hro.2), if_neg hL2, if_neg hl1]
    · rw [if_neg hk1]
      have hL1 : ¬ root_ok t_min m r1 := fun hro =>
        hk1 ⟨hro.1, leF_trans_leFF hro.2 hm⟩
      by_cases hk2 : root_ok t_min t_max r2
      · rw [if_pos hk2]
        simp only [Option.some_bind]
        rw [mk_hit_record_distance]
        rw [if_neg hL1]
        by_cases hl2 : leF r2 m
        · have hro2 : root_ok t_min m r2 := ⟨hk2.1, hl2⟩
          rw [if_pos hro2, if_pos hl2]
        · rw [if_neg (fun hro => hl2 hro.2), if_neg hl2]
      · rw [if_neg hk2]
        have hL2 : ¬ root_ok t_min m r2 := fun hro =>
          hk2 ⟨hro.1, leF_trans_leFF hro.2 hm⟩
        rw [if_neg hL1, if_neg hL2]
        rfl

/-- Invariant-carrying characterization of the `world::hit` loop: on the state
`(closest, cur)` the final result is the record of a globally nearest object
(nearest with respect to the original interval `[t_min, t_max]`), or the
incoming record when no object beats the incoming bound `m`. -/
theorem world_hit_aux_spec (sqrt : ℚ → ℚ) (r : Ray) (t_min : ℚ) (t_max : Option ℚ)
    (hsq : ∀ q : ℚ, 0 ≤ q → 0 ≤ sqrt q)
    (ha : 0 < vec3_dot r.direction r.direction) :
    ∀ (L : List SphereB) (m : Option ℚ) (cur : Option HitRecord),
      leFF m t_max →
      (cur = none → m = t_max) →
      (∀ rec, cur = some rec → m = some rec.distance) →
      (world_hit_aux sqrt r t_min L m cur = none →
         cur = none ∧ ∀ s ∈ L, sphere_hit sqrt s r t_min t_max = none) ∧
      (∀ rec, world_hit_aux sqrt r t_min L m cur = some rec →
         (cur = some rec ∧
            ∀ s ∈ L, ∀ rec', sphere_hit sqrt s r t_min t_max = some rec' →
              ¬ leF rec'.distance m) ∨
         (∃ s ∈ L, sphere_hit sqrt s r t_min t_max = some rec ∧ leF rec.distance m ∧
            ∀ s' ∈ L, ∀ rec', sphere_hit sqrt s' r t_min t_max = some rec' →
              rec.distance ≤ rec'.distance)) := by
  intro L
  induction L with
  | nil =>
    intro m cur h1 h2 h3
    simp only [world_hit_aux]
    constructor
    · intro hres
      exact ⟨hres, by simp⟩
    · intro rec hres
      left
      exact ⟨hres, by simp⟩
  | cons s rest ih =>
    intro m cur hm hcurnone hcursome
    have hnar := sphere_hit_narrow sqrt s r t_min t_max m hsq ha hm
    cases hB : sphere_hit sqrt s r t_min t_max with
    | none =>
      have hstep : sphere_hit sqrt s r t_min m = none := by
        rw [hnar, hB]
        rfl
      have hred : world_hit_aux sqrt r t_min (s :: rest) m cur =
          world_hit_aux sqrt r t_min rest m cur := by
        simp [world_hit_aux, hstep]
      rw [hred]
      obtain ⟨ihn, ihs⟩ := ih m cur hm hcurnone hcursome
      constructor
      · intro hres
        obtain ⟨hc, hall⟩ := ihn hres
        refine ⟨hc, ?_⟩
        intro s' hs'
        rcases List.mem_cons.mp hs' with rfl | hmem
        · exact hB
        · exact hall s' hmem
      · intro rec hres
        rcases ihs rec hres with ⟨hc, hnone⟩ | ⟨s₂, hs₂, hhit, hle, hmin⟩
        · left
          refine ⟨hc, ?_⟩
          intro s' hs' rec' hrec'
          rcases List.mem_cons.mp hs' with rfl | hmem
          · rw [hB] at hrec'
            exact Option.noConfusion hrec'
          · exact hnone s' hmem rec' hrec'
        · right
          refine ⟨s₂, List.mem_cons_of_mem s hs₂, hhit, hle, ?_⟩
          intro s' hs' rec' hrec'
          rcases List.mem_cons.mp hs' with rfl | hmem
          · rw [hB] at hrec'
            exact Option.noConfusion hrec'
          · exact hmin s' hmem rec' hrec'
    | some rec₀ =>
      have hok := sphere_hit_some_ok hB
      by_cases hl : leF rec₀.distance m
      · have hstep : sphere_hit sqrt s r t_min m = some rec₀ := by
          rw [hnar, hB]
          simp [hl]
        have hred : world_hit_aux sqrt r t_min (s :: rest) m cur =
            world_hit_aux sqrt r t_min rest (some rec₀.distance) (some rec₀) := by
          simp [world_hit_aux, hstep]
        rw [hred]
        have hm' : leFF (some rec₀.distance) t_max := leFF_some_of_leF hok.2
        obtain ⟨ihn, ihs⟩ := ih (some rec₀.distance) (some rec₀) hm'
          (fun h => Option.noConfusion h)
          (fun rec h => by injection h with h; rw [h])
        constructor
        · intro hres
          obtain ⟨hc, -⟩ := ihn hres
          exact Option.noConfusion hc
        · intro rec hres
          rcases ihs rec hres with ⟨hc, hnone⟩ | ⟨s₂, hs₂, hhit, hle, hmin⟩
          · injection hc with hc
            subst hc
            right
            refine ⟨s, List.mem_cons_self s rest, hB, hl, ?_⟩
            intro s' hs' rec' hrec'
            rcases List.mem_cons.mp hs' with rfl | hmem
            · rw [hB] at hrec'
              injection hrec' with h
              subst h
              exact le_refl _
            · have hrefl : leF rec₀.distance (some rec₀.distance) :=
                le_refl rec₀.distance
              exact le_of_leF_not_leF hrefl (hnone s' hmem rec' hrec')
          · right
            have hle' : rec.distance ≤ rec₀.distance := hle
            refine ⟨s₂, List.mem_cons_of_mem s hs₂, hhit, leF_of_le hle' hl, ?_⟩
            intro s' hs' rec' hrec'
            rcases List.mem_cons.mp hs' with rfl | hmem
            · rw [hB] at hrec'
              injection hrec' with h
              subst h
              exact hle'
            · exact hmin s' hmem rec' hrec'
      · have hstep : sphere_hit sqrt s r t_min m = none := by
          rw [hnar, hB]
          simp [hl]
        have hred : world_hit_aux sqrt r t_min (s :: rest) m cur =
            world_hit_aux sqrt r t_min rest m cur := by
          simp [world_hit_aux, hstep]
        rw [hred]
        obtain ⟨ihn, ihs⟩ := ih m cur hm hcurnone hcursome
        constructor
        · intro hres
          obtain ⟨hc, -⟩ := ihn hres
          exfalso
          apply hl
          rw [hcurnone hc]
          exact hok.2
        · intro rec hres
          rcases ihs rec hres with ⟨hc, hnone⟩ | ⟨s₂, hs₂, hhit, hle, hmin⟩
          · left
            refine ⟨hc, ?_⟩
            intro s' hs' rec' hrec'
            rcases List.mem_cons.mp hs' with rfl | hmem
            · rw [hB] at hrec'
              injection hrec' with h
              subst h
              exact hl
            · exact hnone s' hmem rec' hrec'
          · right
            refine ⟨s₂, List.mem_cons_of_mem s hs₂, hhit, hle, ?_⟩
            intro s' hs' rec' hrec'
            rcases List.mem_cons.mp hs' with rfl | hmem
            · rw [hB] at hrec'
              injection hrec' with h
              subst h
              exact le_of_leF_not_leF hle hl
            · exact hmin s' hmem rec' hrec'

/-- Helper: `world::hit` satisfies the nearest-hit characterization. -/
theorem world_hit_char (sqrt : ℚ → ℚ) (objects : List SphereB) (r : Ray) (t_min : ℚ)
    (t_max : Option ℚ) (hsq : ∀ q : ℚ, 0 ≤ q → 0 ≤ sqrt q)
    (ha : 0 < vec3_dot r.direction r.direction) :
    world_hit_nearest_char sqrt objects r t_min t_max := by
  obtain ⟨hn, hs⟩ := world_hit_aux_spec sqrt r t_min t_max hsq ha objects t_max none
    (leFF_refl t_max) (fun _ => rfl) (fun rec h => Option.noConfusion h)
  unfold world_hit_nearest_char world_hit
  constructor
  · constructor
    · intro h
      exact (hn h).2
    · intro hall
      cases hres : world_hit_aux sqrt r t_min objects t_max none with
      | none => rfl
      | some rec =>
        rcases hs rec hres with ⟨hc, -⟩ | ⟨s₂, hs₂, hhit, -, -⟩
        · exact Option.noConfusion hc
        · rw [hall s₂ hs₂] at hhit
          exact Option.noConfusion hhit
  · intro rec h
    rcases hs rec h with ⟨hc, -⟩ | ⟨s₂, hs₂, hhit, -, hmin⟩
    · exact Option.noConfusion hc
    · exact ⟨s₂, hs₂, hhit, hmin⟩

/-- C2: scene resolution in both policies is a single linear scan with greedy
interval narrowing that returns the hit record of the globally nearest
intersecting primitive, and "no hit" exactly when no primitive intersects
within the (for Policy A: implicit, `< 1000`) interval. -/
theorem scene_resolution_nearest (sqrt : ℚ → ℚ) (objects : List SphereB) (r : Ray)
    (t_min : ℚ) (t_max : Option ℚ)
    (hsq : ∀ q : ℚ, 0 ≤ q → 0 ≤ sqrt q)
    (ha : 0 < vec3_dot r.direction r.direction) :
    world_hit_nearest_char sqrt objects r t_min t_max ∧
    ∀ (spheres : List SphereA) (origin direction : Vec3),
      scene_intersect_nearest_char sqrt spheres origin direction :=
  ⟨world_hit_char sqrt objects r t_min t_max hsq ha,
   fun spheres origin direction => scene_intersect_char sqrt spheres origin direction⟩

/-- C2 (witness): the theorem applied to a one-sphere Policy B scene with the
standard interval `[0.001, ∞)`. -/
theorem c2_witness :
    (∀ q : ℚ, 0 ≤ q → 0 ≤ Rat.sqrt q) ∧
    (0 < vec3_dot (⟨0, 0, -1⟩ : Vec3) ⟨0, 0, -1⟩) ∧
    (world_hit_nearest_char Rat.sqrt [⟨⟨0, 0, -5⟩, 1⟩] ⟨⟨0, 0, 0⟩, ⟨0, 0, -1⟩⟩
        (1 / 1000) none ∧
      ∀ (spheres : List SphereA) (origin direction : Vec3),
        scene_intersect_nearest_char Rat.sqrt spheres origin direction) :=
  ⟨fun q _ => Rat.sqrt_nonneg q, by norm_num [vec3_dot],
   scene_resolution_nearest Rat.sqrt [⟨⟨0, 0, -5⟩, 1⟩] ⟨⟨0, 0, 0⟩, ⟨0, 0, -1⟩⟩
     (1 / 1000) none (fun q _ => Rat.sqrt_nonneg q) (by norm_num [vec3_dot])⟩

/-- C8 (amended): scene resolution is permutation invariant in the *hit
distance* (and in whether anything is hit at all); the full record can differ
between permutations only on exact distance ties. -/
theorem scene_resolution_perm_distance (sqrt : ℚ → ℚ) (objects objects' : List SphereB)
    (r : Ray) (t_min : ℚ) (t_max : Option ℚ)
    (hsq : ∀ q : ℚ, 0 ≤ q → 0 ≤ sqrt q)
    (ha : 0 < vec3_dot r.direction r.direction)
    (hperm : objects.Perm objects')
    (spheres spheres' : List SphereA) (origin direction : Vec3)
    (hpermA : spheres.Perm spheres') :
    (world_hit sqrt objects r t_min t_max).map HitRecord.distance =
      (world_hit sqrt objects' r t_min t_max).map HitRecord.distance ∧
    ((scene_intersect sqrt spheres origin direction = none) ↔
      (scene_intersect sqrt spheres' origin direction = none)) := by
  constructor
  · obtain ⟨hn1, hs1⟩ := world_hit_char sqrt objects r t_min t_max hsq ha
    obtain ⟨hn2, hs2⟩ := world_hit_char sqrt objects' r t_min t_max hsq ha
    cases h1 : world_hit sqrt objects r t_min t_max with
    | none =>
      cases h2 : world_hit sqrt objects' r t_min t_max with
      | none => rfl
      | some rec2 =>
        obtain ⟨s₂, hs₂, hhit2, -⟩ := hs2 rec2 h2
        have hall := hn1.mp h1
        rw [hall s₂ (hperm.mem_iff.mpr hs₂)] at hhit2
        exact Option.noConfusion hhit2
    | some rec1 =>
      cases h2 : world_hit sqrt objects' r t_min t_max with
      | none =>
        obtain ⟨s₁, hs₁, hhit1, -⟩ := hs1 rec1 h1
        have hall := hn2.mp h2
        rw [hall s₁ (hperm.mem_iff.mp hs₁)] at hhit1
        exact Option.noConfusion hhit1
      | some rec2 =>
        obtain ⟨s₁, hs₁, hhit1, hmin1⟩ := hs1 rec1 h1
        obtain ⟨s₂, hs₂, hhit2, hmin2⟩ := hs2 rec2 h2
        have hle1 : rec1.distance ≤ rec2.distance :=
          hmin1 s₂ (hperm.mem_iff.mpr hs₂) rec2 hhit2
        have hle2 : rec2.distance ≤ rec1.distance :=
          hmin2 s₁ (hperm.mem_iff.mp hs₁) rec1 hhit1
        simp [le_antisymm hle1 hle2]
  · have hc1 := (scene_intersect_char sqrt spheres origin direction).1
    have hc2 := (scene_intersect_char sqrt spheres' origin direction).1
    rw [hc1, hc2]
    constructor
    · intro h
      rintro ⟨s, hs, d, hd, hlt⟩
      exact h ⟨s, hpermA.mem_iff.mpr hs, d, hd, hlt⟩
    · intro h
      rintro ⟨s, hs, d, hd, hlt⟩
      exact h ⟨s, hpermA.mem_iff.mp hs, d, hd, hlt⟩

/-- C8 (counterexample): two unit spheres both tangent to the ray at the same
parameter `t = 5` but with opposite outward normals; swapping their order in
the list changes the returned hit record (the tie goes to the last tested
object in `world::hit`), so the full "nearest hit" is not permutation
invariant. -/
theorem c8_counterexample :
    [(⟨⟨1, 0, -5⟩, 1⟩ : SphereB), ⟨⟨-1, 0, -5⟩, 1⟩].Perm
      [(⟨⟨-1, 0, -5⟩, 1⟩ : SphereB), ⟨⟨1, 0, -5⟩, 1⟩] ∧
    world_hit Rat.sqrt [⟨⟨1, 0, -5⟩, 1⟩, ⟨⟨-1, 0, -5⟩, 1⟩]
        ⟨⟨0, 0, 0⟩, ⟨0, 0, -1⟩⟩ 0 none ≠
      world_hit Rat.sqrt [⟨⟨-1, 0, -5⟩, 1⟩, ⟨⟨1, 0, -5⟩, 1⟩]
        ⟨⟨0, 0, 0⟩, ⟨0, 0, -1⟩⟩ 0 none := by
  constructor
  · exact List.Perm.swap _ _ _
  · norm_num [world_hit, world_hit_aux, sphere_hit, mk_hit_record, ray_at, root_ok,
      leF, vec3_dot]

/-- C8 (witness): the amended theorem applied to the two tangent spheres of
the counterexample: the hit *distance* agrees between the two orders. -/
theorem c8_witness :
    (∀ q : ℚ, 0 ≤ q → 0 ≤ Rat.sqrt q) ∧
    (0 < vec3_dot (⟨0, 0, -1⟩ : Vec3) ⟨0, 0, -1⟩) ∧
    ((world_hit Rat.sqrt [⟨⟨1, 0, -5⟩, 1⟩, ⟨⟨-1, 0, -5⟩, 1⟩]
          ⟨⟨0, 0, 0⟩, ⟨0, 0, -1⟩⟩ 0 none).map HitRecord.distance =
        (world_hit Rat.sqrt [⟨⟨-1, 0, -5⟩, 1⟩, ⟨⟨1, 0, -5⟩, 1⟩]
          ⟨⟨0, 0, 0⟩, ⟨0, 0, -1⟩⟩ 0 none).map HitRecord.distance ∧
      ((scene_intersect Rat.sqrt [] ⟨0, 0, 0⟩ ⟨0, 0, -1⟩ = none) ↔
        (scene_intersect Rat.sqrt [] ⟨0, 0, 0⟩ ⟨0, 0, -1⟩ = none))) :=
  ⟨fun q _ => Rat.sqrt_nonneg q, by norm_num [vec3_dot],
   scene_resolution_perm_distance Rat.sqrt _ _ _ _ _ (fun q _ => Rat.sqrt_nonneg q)
     (by norm_num [vec3_dot]) (List.Perm.swap _ _ _) [] [] ⟨0, 0, 0⟩ ⟨0, 0, -1⟩
     (List.Perm.refl [])⟩

/-! ### C5, C6: Policy B transport -/

/-- C5: when the depth budget is exhausted (`depth ≤ 0`), `raytrace` returns
black `(0, 0, 0)` regardless of scene content; in particular with
`max_depth = 0` every per-sample color is black. -/
theorem raytrace_depth_exhausted (sqrt : ℚ → ℚ) (rng : ℕ → Vec3)
    (objects : List SphereB) (r : Ray) (depth : ℤ) (i fuel : ℕ)
    (hd : depth ≤ 0) (hfuel : 0 < fuel) :
    raytrace_fuel sqrt rng objects r depth i fuel = some (⟨0, 0, 0⟩, i) := by
  cases fuel with
  | zero => omega
  | succ f => simp [raytrace_fuel, hd]

/-- C5 (witness): the theorem applied with `depth = 0` to a nonempty scene. -/
theorem c5_witness :
    ((0 : ℤ) ≤ 0) ∧ 0 < 1 ∧
      raytrace_fuel Rat.sqrt (fun _ => ⟨0, 0, 0⟩) [⟨⟨0, 0, -1⟩, 1/2⟩]
        ⟨⟨0, 0, 0⟩, ⟨0, 0, -1⟩⟩ 0 0 1 = some (⟨0, 0, 0⟩, 0) :=
  ⟨le_refl 0, Nat.one_pos,
   raytrace_depth_exhausted Rat.sqrt (fun _ => ⟨0, 0, 0⟩) [⟨⟨0, 0, -1⟩, 1/2⟩]
     ⟨⟨0, 0, 0⟩, ⟨0, 0, -1⟩⟩ 0 0 1 (le_refl 0) Nat.one_pos⟩

/-- C6: with remaining depth, a ray that hits nothing returns the gradient
`(1-t)·white + t·(0.5, 0.7, 1.0)` with `t = 0.5·(unit_direction.y + 1)`;
in particular every ray in a scene with zero primitives does. -/
theorem raytrace_miss_background (sqrt : ℚ → ℚ) (rng : ℕ → Vec3)
    (objects : List SphereB) (r : Ray) (depth : ℤ) (i fuel : ℕ)
    (hd : 0 < depth) (hfuel : 0 < fuel)
    (hmiss : world_hit sqrt objects r (1 / 1000) none = none) :
    raytrace_fuel sqrt rng objects r depth i fuel =
      some ((1 - (1/2 : ℚ) * ((vec3_normalize sqrt r.direction).y + 1)) •
          (⟨1, 1, 1⟩ : Vec3) +
        ((1/2 : ℚ) * ((vec3_normalize sqrt r.direction).y + 1)) •
          (⟨1/2, 7/10, 1⟩ : Vec3), i) ∧
    ∀ (r' : Ray) (i' : ℕ),
      raytrace_fuel sqrt rng [] r' depth i' fuel = some (background_B sqrt r', i') := by
  have hd' : ¬ depth ≤ 0 := by omega
  cases fuel with
  | zero => omega
  | succ f =>
    constructor
    · simp only [raytrace_fuel]
      rw [if_neg hd', hmiss]
      simp [background_B]
    · intro r' i'
      have hmiss' : world_hit sqrt [] r' (1 / 1000) none = none := rfl
      simp only [raytrace_fuel]
      rw [if_neg hd', hmiss']

/-- C6 (witness): the theorem applied in the empty scene to the ray with
direction `(0, 0, 1)`; the gradient evaluates to `(3/4, 17/20, 1)`. -/
theorem c6_witness :
    (0 : ℤ) < 1 ∧ 0 < 1 ∧
      world_hit Rat.sqrt [] ⟨⟨0, 0, 0⟩, ⟨0, 0, 1⟩⟩ (1 / 1000) none = none ∧
      raytrace_fuel Rat.sqrt (fun _ => ⟨0, 0, 0⟩) [] ⟨⟨0, 0, 0⟩, ⟨0, 0, 1⟩⟩ 1 0 1 =
        some (⟨3/4, 17/20, 1⟩, 0) := by
  refine ⟨by norm_num, Nat.one_pos, rfl, ?_⟩
  rw [(raytrace_miss_background Rat.sqrt (fun _ => ⟨0, 0, 0⟩) [] ⟨⟨0, 0, 0⟩, ⟨0, 0, 1⟩⟩
    1 0 1 (by norm_num) Nat.one_pos rfl).1]
  norm_num [vec3_normalize, vec3_length]

/-! ### C9: termination of the transport engines -/

theorem random_in_unit_sphere_fuel_mono (rng : ℕ → Vec3) :
    ∀ (f f' i : ℕ) (x : Vec3 × ℕ), f ≤ f' →
      random_in_unit_sphere_fuel rng i f = some x →
      random_in_unit_sphere_fuel rng i f' = some x := by
  intro f
  induction f with
  | zero =>
    intro f' i x h hx
    simp [random_in_unit_sphere_fuel] at hx
  | succ g ihg =>
    intro f' i x h hx
    cases f' with
    | zero => omega
    | succ g' =>
      simp only [random_in_unit_sphere_fuel] at hx ⊢
      by_cases hp : vec3_dot (rng i) (rng i) < 1
      · rw [if_pos hp] at hx ⊢
        exact hx
      · rw [if_neg hp] at hx ⊢
        exact ihg g' (i + 1) x (by omega) hx

theorem random_in_unit_sphere_fuel_succeeds (rng : ℕ → Vec3) :
    ∀ (k i : ℕ), vec3_dot (rng (i + k)) (rng (i + k)) < 1 →
      ∃ x, random_in_unit_sphere_fuel rng i (k + 1) = some x := by
  intro k
  induction k with
  | zero =>
    intro i h
    simp only [Nat.add_zero] at h
    exact ⟨(rng i, i + 1), by simp [random_in_unit_sphere_fuel, h]⟩
  | succ k ihk =>
    intro i h
    by_cases hp : vec3_dot (rng i) (rng i) < 1
    · exact ⟨(rng i, i + 1), by simp [random_in_unit_sphere_fuel, hp]⟩
    · have h' : vec3_dot (rng (i + 1 + k)) (rng (i + 1 + k)) < 1 := by
        have harith : i + 1 + k = i + (k + 1) := by omega
        rw [harith]
        exact h
      obtain ⟨x, hx⟩ := ihk (i + 1) h'
      refine ⟨x, ?_⟩
      simp only [random_in_unit_sphere_fuel]
      rw [if_neg hp]
      exact hx

theorem raytrace_fuel_depth_step (sqrt : ℚ → ℚ) (rng : ℕ → Vec3)
    (objects : List SphereB) (r : Ray) (depth : ℤ) (i fuel : ℕ) (hd : depth ≤ 0) :
    raytrace_fuel sqrt rng objects r depth i (fuel + 1) = some (⟨0, 0, 0⟩, i) := by
  simp only [raytrace_fuel]
  rw [if_pos hd]

theorem raytrace_fuel_miss_step (sqrt : ℚ → ℚ) (rng : ℕ → Vec3)
    (objects : List SphereB) (r : Ray) (depth : ℤ) (i fuel : ℕ)
    (hd : ¬ depth ≤ 0) (hw : world_hit sqrt objects r (1 / 1000) none = none) :
    raytrace_fuel sqrt rng objects r depth i (fuel + 1) =
      some (background_B sqrt r, i) := by
  simp only [raytrace_fuel]
  rw [if_neg hd, hw]

theorem raytrace_fuel_hit_step (sqrt : ℚ → ℚ) (rng : ℕ → Vec3)
    (objects : List SphereB) (r : Ray) (depth : ℤ) (i fuel : ℕ) (rec : HitRecord)
    (hd : ¬ depth ≤ 0) (hw : world_hit sqrt objects r (1 / 1000) none = some rec) :
    raytrace_fuel sqrt rng objects r depth i (fuel + 1) =
      (random_in_unit_sphere_fuel rng i (fuel + 1)).bind fun pi =>
        (raytrace_fuel sqrt rng objects
            ⟨rec.point, rec.point + rec.normal + vec3_normalize sqrt pi.1 - rec.point⟩
            (depth - 1) pi.2 fuel).bind fun ci =>
          some ((1 / 2 : ℚ) • ci.1, ci.2) := by
  simp only [raytrace_fuel]
  rw [if_neg hd, hw]

theorem raytrace_fuel_mono (sqrt : ℚ → ℚ) (rng : ℕ → Vec3) (objects : List SphereB) :
    ∀ (f f' : ℕ) (r : Ray) (depth : ℤ) (i : ℕ) (x : Vec3 × ℕ), f ≤ f' →
      raytrace_fuel sqrt rng objects r depth i f = some x →
      raytrace_fuel sqrt rng objects r depth i f' = some x := by
  intro f
  induction f with
  | zero =>
    intro f' r depth i x h hx
    simp [raytrace_fuel] at hx
  | succ g ihg =>
    intro f' r depth i x h hx
    cases f' with
    | zero => omega
    | succ g' =>
      by_cases hd : depth ≤ 0
      · rw [raytrace_fuel_depth_step sqrt rng objects r depth i g hd] at hx
        rw [raytrace_fuel_depth_step sqrt rng objects r depth i g' hd]
        exact hx
      · cases hw : world_hit sqrt objects r (1 / 1000) none with
        | none =>
          rw [raytrace_fuel_miss_step sqrt rng objects r depth i g hd hw] at hx
          rw [raytrace_fuel_miss_step sqrt rng objects r depth i g' hd hw]
          exact hx
        | some rec =>
          rw [raytrace_fuel_hit_step sqrt rng objects r depth i g rec hd hw] at hx
          rw [raytrace_fuel_hit_step sqrt rng objects r depth i g' rec hd hw]
          cases hr : random_in_unit_sphere_fuel rng i (g + 1) with
          | none =>
            rw [hr, Option.none_bind] at hx
            exact Option.noConfusion hx
          | some pi =>
            simp only [hr, Option.some_bind] at hx
            have hr' : random_in_unit_sphere_fuel rng i (g' + 1) = some pi :=
              random_in_unit_sphere_fuel_mono rng (g + 1) (g' + 1) i pi (by omega) hr
            simp only [hr', Option.some_bind]
            cases hrec : raytrace_fuel sqrt rng objects
                ⟨rec.point, rec.point + rec.normal + vec3_normalize sqrt pi.1 - rec.point⟩
                (depth - 1) pi.2 g with
            | none =>
              rw [hrec, Option.none_bind] at hx
              exact Option.noConfusion hx
            | some ci =>
              simp only [hrec, Option.some_bind] at hx
              have hrec' := ihg g' _ (depth - 1) pi.2 ci (by omega) hrec
              simp only [hrec', Option.some_bind]
              exact hx

theorem raytrace_fuel_terminates (sqrt : ℚ → ℚ) (rng : ℕ → Vec3)
    (objects : List SphereB) (hg : GoodStream rng) :
    ∀ (n : ℕ) (r : Ray) (depth : ℤ) (i : ℕ), depth.toNat ≤ n →
      ∃ fuel x, raytrace_fuel sqrt rng objects r depth i fuel = some x := by
  intro n
  induction n with
  | zero =>
    intro r depth i hd
    have hdep : depth ≤ 0 := by omega
    exact ⟨1, (⟨0, 0, 0⟩, i),
      raytrace_fuel_depth_step sqrt rng objects r depth i 0 hdep⟩
  | succ n ihn =>
    intro r depth i hd
    by_cases hdep : depth ≤ 0
    · exact ⟨1, (⟨0, 0, 0⟩, i),
        raytrace_fuel_depth_step sqrt rng objects r depth i 0 hdep⟩
    · cases hw : world_hit sqrt objects r (1 / 1000) none with
      | none =>
        exact ⟨1, (background_B sqrt r, i),
          raytrace_fuel_miss_step sqrt rng objects r depth i 0 hdep hw⟩
      | some rec =>
        obtain ⟨k, hk⟩ := hg i
        obtain ⟨⟨p, i'⟩, hri⟩ := random_in_unit_sphere_fuel_succeeds rng k i hk
        obtain ⟨f₂, ⟨c₂, i₂⟩, hx₂⟩ := ihn
          ⟨rec.point, rec.point + rec.normal + vec3_normalize sqrt p - rec.point⟩
          (depth - 1) i' (by omega)
        refine ⟨max (k + 1) f₂ + 1, ((1/2 : ℚ) • c₂, i₂), ?_⟩
        have hri' : random_in_unit_sphere_fuel rng i (max (k + 1) f₂ + 1) =
            some (p, i') :=
          random_in_unit_sphere_fuel_mono rng (k + 1) _ i (p, i')
            (le_trans (le_max_left _ _) (Nat.le_succ _)) hri
        have hx₂' : raytrace_fuel sqrt rng objects
            ⟨rec.point, rec.point + rec.normal + vec3_normalize sqrt p - rec.point⟩
            (depth - 1) i' (max (k + 1) f₂) = some (c₂, i₂) :=
          raytrace_fuel_mono sqrt rng objects f₂ _ _ (depth - 1) i' (c₂, i₂)
            (le_max_right _ _) hx₂
        rw [raytrace_fuel_hit_step sqrt rng objects r depth i (max (k + 1) f₂) rec
          hdep hw]
        simp only [hri', Option.some_bind, hx₂']

theorem cast_ray_fuel_hit_step (sqrt : ℚ → ℚ) (powf : ℚ → ℚ → ℚ)
    (spheres : List SphereA) (lights : List Light) (origin direction : Vec3)
    (depth fuel : ℕ) (sh : SceneHit) (hd : depth ≤ 4)
    (hsc : scene_intersect sqrt spheres origin direction = some sh) :
    cast_ray_fuel sqrt powf spheres lights origin direction depth (fuel + 1) =
      (cast_ray_fuel sqrt powf spheres lights
          (bias_origin sh.hit sh.N (vec3_normalize sqrt (vec3_reflect direction sh.N)))
          (vec3_normalize sqrt (vec3_reflect direction sh.N)) (depth + 1) fuel).bind
        fun reflect_color =>
      (cast_ray_fuel sqrt powf spheres lights
          (bias_origin sh.hit sh.N (vec3_normalize sqrt
            (vec3_refract sqrt direction sh.N sh.material.refractive_index 1)))
          (vec3_normalize sqrt
            (vec3_refract sqrt direction sh.N sh.material.refractive_index 1))
          (depth + 1) fuel).bind fun refract_color =>
      some (cast_ray_shade sh.material
        (lights.foldl (light_step sqrt powf spheres sh.hit sh.N direction sh.material)
          (0, 0)) reflect_color refract_color) := by
  simp only [cast_ray_fuel]
  rw [if_pos hd, hsc]

theorem cast_ray_fuel_terminates (sqrt : ℚ → ℚ) (powf : ℚ → ℚ → ℚ)
    (spheres : List SphereA) (lights : List Light) :
    ∀ (fuel depth : ℕ) (origin direction : Vec3), 5 - depth < fuel →
      ∃ c, cast_ray_fuel sqrt powf spheres lights origin direction depth fuel =
        some c := by
  intro fuel
  induction fuel with
  | zero =>
    intro depth origin direction h
    omega
  | succ f ihf =>
    intro depth origin direction h
    by_cases hd : depth ≤ 4
    · cases hsc : scene_intersect sqrt spheres origin direction with
      | none => exact ⟨background_A, by simp [cast_ray_fuel, hd, hsc]⟩
      | some sh =>
        obtain ⟨c₁, hc₁⟩ := ihf (depth + 1)
          (bias_origin sh.hit sh.N (vec3_normalize sqrt (vec3_reflect direction sh.N)))
          (vec3_normalize sqrt (vec3_reflect direction sh.N)) (by omega)
        obtain ⟨c₂, hc₂⟩ := ihf (depth + 1)
          (bias_origin sh.hit sh.N (vec3_normalize sqrt
            (vec3_refract sqrt direction sh.N sh.material.refractive_index 1)))
          (vec3_normalize sqrt
            (vec3_refract sqrt direction sh.N sh.material.refractive_index 1))
          (by omega)
        refine ⟨cast_ray_shade sh.material
          (lights.foldl (light_step sqrt powf spheres sh.hit sh.N direction
            sh.material) (0, 0)) c₁ c₂, ?_⟩
        rw [cast_ray_fuel_hit_step sqrt powf spheres lights origin direction depth f
          sh hd hsc]
        simp only [hc₁, Option.some_bind, hc₂]
    · exact ⟨background_A, by simp [cast_ray_fuel, hd]⟩

/-- C9: both transport engines terminate and return a color: Policy A's
`cast_ray` needs at most 6 units of fuel for any depth, and Policy B's
`raytrace` (including the rejection-sampling loop `random_in_unit_sphere`)
succeeds for some finite fuel whenever the random stream keeps producing
points inside the unit ball (as the real `mt19937`-driven stream does). -/
theorem transport_terminates (sqrt : ℚ → ℚ) (powf : ℚ → ℚ → ℚ)
    (spheres : List SphereA) (lights : List Light) (origin direction : Vec3)
    (depth : ℕ) (rng : ℕ → Vec3) (objects : List SphereB) (r : Ray) (depthB : ℤ)
    (i : ℕ) (hg : GoodStream rng) :
    (∃ c, cast_ray_fuel sqrt powf spheres lights origin direction depth 6 = some c) ∧
    (∃ fuel x, raytrace_fuel sqrt rng objects r depthB i fuel = some x) :=
  ⟨cast_ray_fuel_terminates sqrt powf spheres lights 6 depth origin direction
     (by omega),
   raytrace_fuel_terminates sqrt rng objects hg depthB.toNat r depthB i (le_refl _)⟩

/-- C9 (witness): the theorem applied to concrete scenes with the constant
in-ball candidate stream. -/
theorem c9_witness :
    GoodStream (fun _ => ⟨0, 0, 0⟩) ∧
    ((∃ c, cast_ray_fuel Rat.sqrt (fun _ _ => 1) [] [] ⟨0, 0, 0⟩ ⟨0, 0, 1⟩ 0 6 =
       some c) ∧
     (∃ fuel x, raytrace_fuel Rat.sqrt (fun _ => ⟨0, 0, 0⟩) []
       ⟨⟨0, 0, 0⟩, ⟨0, 0, 1⟩⟩ 50 0 fuel = some x)) := by
  have hg : GoodStream (fun _ => ⟨0, 0, 0⟩) := fun i => ⟨0, by norm_num [vec3_dot]⟩
  exact ⟨hg, transport_terminates Rat.sqrt (fun _ _ => 1) [] [] ⟨0, 0, 0⟩ ⟨0, 0, 1⟩ 0
    (fun _ => ⟨0, 0, 0⟩) [] ⟨⟨0, 0, 0⟩, ⟨0, 0, 1⟩⟩ 50 0 hg⟩
